import Mathlib

/-!
# Verification of the torznab-monitor polling/dedup/dispatch pipeline

A shallow embedding of the core logic of `src/main.py` (class
`TorznabMonitor`) and `src/configurations/notification_config.py` (class
`NotificationConfig`), together with theorems about the normalization,
deduplication, category filtering, persistence capping and field-mapping
behaviour of the program.

Conventions of the embedding:
* Python strings are Lean `String`s; character-level splitting is modelled
  on `List Char` (`String.data`).
* A Python `Optional[str]` (and an XML text that may be absent) is
  `Option String`.
* An XML `<item>` element is the structure `Item` below: the text of its
  first `<guid>` child, the text of its first `<title>` child, the list of
  its descendant namespaced `attr` elements (pairs of the `name` attribute
  and the optional `value` attribute, in document order), and the list of
  tag paths reachable by `Element.find` (pair of path and optional text,
  in document order).
* Stateful file I/O is made explicit: the persisted seen file is passed
  and returned as a value.  A file that is missing or holds malformed JSON
  is the `none` case.
-/

namespace Torznab

/-! ## Splitting primitives (Python `str.split`)

`splitFirst c l` models Python `s.split(c, 1)` together with the tuple
unpacking in `_clean_guid`: it is `none` exactly when `c` does not occur
in `l` (Python raises `ValueError` on unpacking then), and otherwise
returns the part before the first occurrence and everything after it.

`splitAll c l` models Python `s.split(c)` for a one-character separator:
the (never empty) list of the pieces of `l` between occurrences of `c`.
-/

def splitFirst (c : Char) : List Char → Option (List Char × List Char)
  | [] => none
  | x :: xs =>
    if x = c then some ([], xs)
    else (splitFirst c xs).map (fun p => (x :: p.1, p.2))

/-- Prepend a character to the first piece of a split (helper for `splitAll`). -/
def consHead (x : Char) : List (List Char) → List (List Char)
  | [] => [[x]]
  | y :: ys => (x :: y) :: ys

def splitAll (c : Char) : List Char → List (List Char)
  | [] => [[]]
  | x :: xs => if x = c then [] :: splitAll c xs else consHead x (splitAll c xs)

/-- Python `param.startswith('id=')`. -/
def startsWithId : List Char → Bool
  | 'i' :: 'd' :: '=' :: _ => true
  | _ => false

/-- `TorznabMonitor._clean_guid` on the character list of the GUID:
split on the first `'?'` (no `'?'` means the tuple unpacking raises
`ValueError`, which the `except` clause turns into returning the input
unchanged); then scan the `'&'`-separated parameters for the first one
starting with `id=` and keep only it, or drop the query entirely. -/
def cleanGuidL (g : List Char) : List Char :=
  match splitFirst '?' g with
  | none => g
  | some (base, params) =>
    match (splitAll '&' params).find? (fun p => startsWithId p) with
    | some p => base ++ '?' :: p
    | none => base

/-- `TorznabMonitor._clean_guid` (the spec's `normalizeIdentity`). -/
def clean_guid (s : String) : String := ⟨cleanGuidL s.data⟩

theorem splitFirst_eq_none (c : Char) : ∀ l : List Char, c ∉ l → splitFirst c l = none
  | [], _ => rfl
  | x :: xs, h => by
    have hx : ¬x = c := fun e => h (e ▸ List.mem_cons_self x xs)
    have h2 : c ∉ xs := fun hm => h (List.mem_cons_of_mem x hm)
    simp [splitFirst, hx, splitFirst_eq_none c xs h2]

theorem splitFirst_append (c : Char) :
    ∀ (a b : List Char), c ∉ a → splitFirst c (a ++ c :: b) = some (a, b)
  | [], b, _ => by simp [splitFirst]
  | x :: xs, b, h => by
    have hx : ¬x = c := fun e => h (e ▸ List.mem_cons_self x xs)
    have h2 : c ∉ xs := fun hm => h (List.mem_cons_of_mem x hm)
    simp [splitFirst, hx, splitFirst_append c xs b h2]

/-- The base part returned by `splitFirst` holds no separator, and the input
decomposes as base, separator, remainder. -/
theorem splitFirst_base (c : Char) :
    ∀ (l a b : List Char), splitFirst c l = some (a, b) → c ∉ a ∧ l = a ++ c :: b
  | [], a, b, h => by simp [splitFirst] at h
  | x :: xs, a, b, h => by
    by_cases hx : x = c
    · rw [show splitFirst c (x :: xs) = some ([], xs) by simp [splitFirst, hx]] at h
      cases h
      exact ⟨by simp, by simp [hx]⟩
    · rcases he : splitFirst c xs with _ | ⟨p, q⟩
      · simp [splitFirst, hx, he] at h
      · simp only [splitFirst, if_neg hx, he, Option.map_some', Option.some.injEq,
          Prod.mk.injEq] at h
        obtain ⟨rfl, rfl⟩ := h
        obtain ⟨hc, heq⟩ := splitFirst_base c xs p q he
        refine ⟨?_, by rw [List.cons_append, ← heq]⟩
        intro hm
        rcases List.mem_cons.mp hm with h' | h'
        · exact hx h'.symm
        · exact hc h'

theorem splitAll_ne_nil (c : Char) : ∀ l : List Char, splitAll c l ≠ []
  | [] => by simp [splitAll]
  | x :: xs => by
    by_cases hx : x = c
    · simp [splitAll, hx]
    · rcases he : splitAll c xs with _ | ⟨y, ys⟩
      · exact absurd he (splitAll_ne_nil c xs)
      · simp [splitAll, hx, he, consHead]

theorem not_mem_of_mem_splitAll (c : Char) :
    ∀ l : List Char, ∀ p ∈ splitAll c l, c ∉ p
  | [], p, hp => by
    simp only [splitAll, List.mem_singleton] at hp
    subst hp; simp
  | x :: xs, p, hp => by
    by_cases hx : x = c
    · rw [show splitAll c (x :: xs) = [] :: splitAll c xs by simp [splitAll, hx]] at hp
      rcases List.mem_cons.mp hp with h | h
      · subst h; simp
      · exact not_mem_of_mem_splitAll c xs p h
    · rcases he : splitAll c xs with _ | ⟨y, ys⟩
      · exact absurd he (splitAll_ne_nil c xs)
      · rw [show splitAll c (x :: xs) = (x :: y) :: ys by
          simp [splitAll, hx, he, consHead]] at hp
        rcases List.mem_cons.mp hp with h | h
        · subst h
          intro hm
          rcases List.mem_cons.mp hm with h' | h'
          · exact hx h'.symm
          · exact not_mem_of_mem_splitAll c xs y (he ▸ List.mem_cons_self y ys) h'
        · exact not_mem_of_mem_splitAll c xs p (he ▸ List.mem_cons_of_mem y h)

theorem splitAll_of_not_mem (c : Char) : ∀ l : List Char, c ∉ l → splitAll c l = [l]
  | [], _ => rfl
  | x :: xs, h => by
    have hx : ¬x = c := fun e => h (e ▸ List.mem_cons_self x xs)
    have h2 : c ∉ xs := fun hm => h (List.mem_cons_of_mem x hm)
    simp [splitAll, hx, splitAll_of_not_mem c xs h2, consHead]

theorem cleanGuidL_of_no_sep (g : List Char) (h : splitFirst '?' g = none) :
    cleanGuidL g = g := by
  simp [cleanGuidL, h]

theorem cleanGuidL_of_no_id (g base params : List Char)
    (hs : splitFirst '?' g = some (base, params))
    (hf : (splitAll '&' params).find? (fun p => startsWithId p) = none) :
    cleanGuidL g = base := by
  simp [cleanGuidL, hs, hf]

theorem cleanGuidL_of_id (g base params p : List Char)
    (hs : splitFirst '?' g = some (base, params))
    (hf : (splitAll '&' params).find? (fun p => startsWithId p) = some p) :
    cleanGuidL g = base ++ '?' :: p := by
  simp [cleanGuidL, hs, hf]

/-- Cleaning is idempotent: the output of `_clean_guid` is a fixed point
of `_clean_guid`.  This is what makes the persisted (already cleaned)
identities survive the re-cleaning performed by `_load_seen`. -/
theorem cleanGuidL_idem (g : List Char) : cleanGuidL (cleanGuidL g) = cleanGuidL g := by
  rcases hs : splitFirst '?' g with _ | ⟨base, params⟩
  · rw [cleanGuidL_of_no_sep g hs, cleanGuidL_of_no_sep g hs]
  · obtain ⟨hbase, -⟩ := splitFirst_base '?' g base params hs
    rcases hf : (splitAll '&' params).find? (fun p => startsWithId p) with _ | p
    · rw [cleanGuidL_of_no_id g base params hs hf,
        cleanGuidL_of_no_sep base (splitFirst_eq_none '?' base hbase)]
    · have hp_id : startsWithId p = true := by simpa using List.find?_some hf
      have hp_amp : '&' ∉ p :=
        not_mem_of_mem_splitAll '&' params p (List.mem_of_find?_eq_some hf)
      rw [cleanGuidL_of_id g base params p hs hf,
        cleanGuidL_of_id (base ++ '?' :: p) base p p
          (splitFirst_append '?' base p hbase)
          (by rw [splitAll_of_not_mem '&' p hp_amp]; simp [List.find?, hp_id])]

theorem clean_guid_idem (s : String) : clean_guid (clean_guid s) = clean_guid s := by
  simp [clean_guid, cleanGuidL_idem]

/-! ## Feed entries -/

/-- One `<item>` element of the fetched feed, as the monitor observes it:
the text of its first `<guid>` child (`none` when the element or its text
is absent), the text of its first `<title>` child, its descendant
namespaced `attr` elements as `(name, value)` pairs in document order
(the `value` attribute may be absent), and the element texts reachable by
`Element.find(path)` as `(path, text)` pairs in document order. -/
structure Item where
  guid : Option String
  title : Option String
  attrs : List (String × Option String)
  tags : List (String × Option String)
  deriving DecidableEq

/-- The guid string `_process_items` works with: `item.find('guid').text`
when present, with Python's falsiness check `if not guid` folding the
empty string into the absent case (both are skipped). -/
def itemGuid (it : Item) : Option String :=
  match it.guid with
  | none => none
  | some g => if g = "" then none else some g

/-- The normalized identity of an entry: its (present, non-empty) guid
after `_clean_guid`. -/
def itemIdentity (it : Item) : Option String := (itemGuid it).map clean_guid

/-- The loop body of `_extract_torznab_attr`: collect the `value`
attribute of every descendant `attr` element whose `name` attribute
equals `attrName`, in document order. -/
def collectAttrValues (attrName : String) : List (String × Option String) → List (Option String)
  | [] => []
  | a :: rest =>
    if a.1 = attrName then a.2 :: collectAttrValues attrName rest
    else collectAttrValues attrName rest

/-- `TorznabMonitor._extract_categories`: the values of the `category`
attributes (the code holds them in a `set`; only membership is ever
used, so the document-order list stands for it). -/
def extract_categories (it : Item) : List (Option String) :=
  collectAttrValues "category" it.attrs

/-- Python `categories & item_categories` tested non-empty: some
configured category string occurs among the entry's category values. -/
def matchesCategories (cats : List String) (it : Item) : Bool :=
  cats.any (fun c => (extract_categories it).contains (some c))

/-! ## Seen-set store -/

/-- `TorznabMonitor._load_seen`: `none` is the `FileNotFoundError` /
`JSONDecodeError` branch (missing or malformed file), yielding the empty
set; otherwise the set comprehension `{_clean_guid(g) for g in loaded}`.
The Python value is a set; the deduplicated list represents it (only
membership is used downstream). -/
def load_seen : Option (List String) → List String
  | none => []
  | some l => (l.map clean_guid).dedup

/-- `TorznabMonitor._save_seen` acting on `seen_list = list(seen)`: when
the list holds more than 200 items only `seen_list[-200:]` is written.
CPython enumerates a `set` in hash-table order, not insertion order, so
the enumeration `enum` produced by `list(seen)` is this function's
input: any ordering of the set's elements is possible. -/
def save_seen (enum : List String) : List String :=
  if enum.length > 200 then enum.drop (enum.length - 200) else enum

/-! ## Category filter & processor -/

/-- `TorznabMonitor._process_items` on an already-loaded seen set:
for each item in the given order, skip it when the guid is absent or
empty, skip it when the cleaned guid is already in the seen set,
and otherwise append it to the match list and add its cleaned guid to
the seen set exactly when its categories intersect the configured ones.
Returns the match list and the final seen set (which `_save_seen` then
persists); the seen list grows at the tail, recording insertion order. -/
def process_items (cats : List String) : List Item → List String → List Item × List String
  | [], seen => ([], seen)
  | it :: rest, seen =>
    match itemGuid it with
    | none => process_items cats rest seen
    | some g =>
      if clean_guid g ∈ seen then process_items cats rest seen
      else if matchesCategories cats it then
        let r := process_items cats rest (seen ++ [clean_guid g])
        (it :: r.1, r.2)
      else process_items cats rest seen

/-- `TorznabMonitor.poll_torznab` for one cycle, given the fetched items
(in feed document order) and the contents of the persisted seen file:
processes the items in reverse order, then sends one notification per
matching item in the order returned.  Result: (the items notified, in
dispatch order; the in-memory seen set to be persisted by `_save_seen`). -/
def poll_torznab (items : List Item) (cats : List String)
    (seenFile : Option (List String)) : List Item × List String :=
  process_items cats items.reverse (load_seen seenFile)

/-- `TorznabMonitor._initialize_seen_items`: clears the persisted seen
file (so `_process_items` loads the empty set), processes the snapshot in
original document order, and sends no notification.  Result: (the items
notified — none; the seen set to be persisted). -/
def initialize_seen_items (items : List Item) (cats : List String) :
    List Item × List String :=
  ([], (process_items cats items (load_seen none)).2)

/-! ## Field mapping engine (`NotificationConfig`) -/

/-- A Python value assignable to one notification field: `None`, a
string, or the list of `value` attributes of the matching `attr`
elements (each possibly absent, i.e. `None`). -/
inductive FieldValue where
  | null
  | str (s : String)
  | vals (l : List (Option String))
  deriving DecidableEq

/-- The dataclass `NotificationMapping` of
`src/configurations/notification_config.py`. -/
structure NotificationMapping where
  type : String
  path : Option String := none
  name : Option String := none
  value : Option String := none
  select : Option String := none
  deriving DecidableEq

/-- A Python `Optional[str]` as a field value (`None` stays `None`). -/
def toFieldValue : Option String → FieldValue
  | none => FieldValue.null
  | some s => FieldValue.str s

/-- Python f-string interpolation of an `Optional[str]`: `None` renders
as the four characters `None`.  `_extract_torznab_attr` builds its XPath
with `f"...[@name='{attr_name}']"`, so an absent configured name matches
attr elements literally named `None`. -/
def pyInterp : Option String → String
  | none => "None"
  | some s => s

/-- `NotificationConfig._extract_torznab_attr`: collect the matching
`value`s in document order; an empty collection yields `None`; otherwise
`select == 'first'` picks the first collected value and any other select
(including an absent one) yields the whole list. -/
def extract_torznab_attr (it : Item) (attrName : Option String)
    (select : Option String) : FieldValue :=
  match collectAttrValues (pyInterp attrName) it.attrs with
  | [] => FieldValue.null
  | v :: vs =>
    if select = some "first" then toFieldValue v else FieldValue.vals (v :: vs)

/-- `NotificationConfig._extract_xml_tag`: `item.find(path)` and the text
of the found element.  An absent (`None`) path makes `find` raise, which
the function's `except` clause turns into `None`; a path matching no
element yields `None`; an element with no text yields `None`. -/
def extract_xml_tag (it : Item) (path : Option String) : Option String :=
  match path with
  | none => none
  | some p =>
    match it.tags.find? (fun t => t.1 = p) with
    | none => none
    | some t => t.2

/-- `NotificationConfig.get_notification_data` over the (insertion-
ordered) field dictionary of one mapping: dispatch each field on its
`type`; a field whose type is none of the three known kinds sets no key
at all.  The per-field `try/except` (and the `except` clauses inside the
two extractors) make every field's extraction independent of the
others. -/
def get_notification_data (it : Item) :
    List (String × NotificationMapping) → List (String × FieldValue)
  | [] => []
  | (f, fm) :: rest =>
    if fm.type = "static" then
      (f, toFieldValue fm.value) :: get_notification_data it rest
    else if fm.type = "xml_tag" then
      (f, toFieldValue (extract_xml_tag it fm.path)) :: get_notification_data it rest
    else if fm.type = "torznab_attr" then
      (f, extract_torznab_attr it fm.name fm.select) :: get_notification_data it rest
    else
      get_notification_data it rest

/-! ## Concrete feed entries for closed instances -/

/-- Entry with identity `gA?id=1`, category 9999 (not monitored). -/
def itemA : Item := ⟨some "gA?id=1", some "A", [("category", some "9999")], []⟩

/-- Entry with identity `gB?id=2`, category 2000 (monitored). -/
def itemB : Item :=
  ⟨some "gB?id=2", some "B", [("category", some "2000"), ("size", some "1")], []⟩

/-- Entry with identity `gC?id=3`, category 2000 (monitored). -/
def itemC : Item := ⟨some "gC?id=3", some "C", [("category", some "2000")], []⟩

/-- Entry carrying a `title` tag, for the field-mapping instances. -/
def itemT : Item := ⟨some "gT?id=9", some "T", [], [("title", some "Hello")]⟩

/-- A two-field mapping: one static field and one unknown-type field. -/
def mappingEx : List (String × NotificationMapping) :=
  [("known", ⟨"static", none, none, some "v", none⟩),
   ("weird", ⟨"mystery", none, none, none, none⟩)]

/-! ## Unfolding lemmas for `process_items` -/

theorem process_items_noguid (cats : List String) (it : Item) (rest : List Item)
    (seen : List String) (h : itemGuid it = none) :
    process_items cats (it :: rest) seen = process_items cats rest seen := by
  simp [process_items, h]

theorem process_items_seen (cats : List String) (it : Item) (rest : List Item)
    (seen : List String) (g : String) (h : itemGuid it = some g)
    (hs : clean_guid g ∈ seen) :
    process_items cats (it :: rest) seen = process_items cats rest seen := by
  simp [process_items, h, hs]

theorem process_items_nomatch (cats : List String) (it : Item) (rest : List Item)
    (seen : List String) (g : String) (h : itemGuid it = some g)
    (hs : clean_guid g ∉ seen) (hm : matchesCategories cats it = false) :
    process_items cats (it :: rest) seen = process_items cats rest seen := by
  simp [process_items, h, hs, hm]

theorem process_items_match_fst (cats : List String) (it : Item) (rest : List Item)
    (seen : List String) (g : String) (h : itemGuid it = some g)
    (hs : clean_guid g ∉ seen) (hm : matchesCategories cats it = true) :
    (process_items cats (it :: rest) seen).1 =
      it :: (process_items cats rest (seen ++ [clean_guid g])).1 := by
  simp [process_items, h, hs, hm]

theorem process_items_match_snd (cats : List String) (it : Item) (rest : List Item)
    (seen : List String) (g : String) (h : itemGuid it = some g)
    (hs : clean_guid g ∉ seen) (hm : matchesCategories cats it = true) :
    (process_items cats (it :: rest) seen).2 =
      (process_items cats rest (seen ++ [clean_guid g])).2 := by
  simp [process_items, h, hs, hm]

/-! ## Invariants of one processing pass -/

/-- The seen set only grows during a pass. -/
theorem seen_sub_process (cats : List String) :
    ∀ (items : List Item) (seen : List String) (g : String), g ∈ seen →
      g ∈ (process_items cats items seen).2
  | [], _, _, hg => hg
  | it :: rest, seen, g, hg => by
    rcases hgu : itemGuid it with _ | gu
    · rw [process_items_noguid cats it rest seen hgu]
      exact seen_sub_process cats rest seen g hg
    · by_cases hs : clean_guid gu ∈ seen
      · rw [process_items_seen cats it rest seen gu hgu hs]
        exact seen_sub_process cats rest seen g hg
      · rcases hm : matchesCategories cats it with _ | _
        · rw [process_items_nomatch cats it rest seen gu hgu hs hm]
          exact seen_sub_process cats rest seen g hg
        · rw [process_items_match_snd cats it rest seen gu hgu hs hm]
          exact seen_sub_process cats rest _ g (List.mem_append_left _ hg)

/-- An identity already in the seen set is never matched during the pass:
the dedup skip of `_process_items`. -/
theorem match_id_not_seen (cats : List String) :
    ∀ (items : List Item) (seen : List String) (g : String), g ∈ seen →
      ∀ it ∈ (process_items cats items seen).1, itemIdentity it ≠ some g
  | [], _, _, _, it, hit => by simp [process_items] at hit
  | it0 :: rest, seen, g, hg, it, hit => by
    rcases hgu : itemGuid it0 with _ | gu
    · rw [process_items_noguid cats it0 rest seen hgu] at hit
      exact match_id_not_seen cats rest seen g hg it hit
    · by_cases hs : clean_guid gu ∈ seen
      · rw [process_items_seen cats it0 rest seen gu hgu hs] at hit
        exact match_id_not_seen cats rest seen g hg it hit
      · rcases hm : matchesCategories cats it0 with _ | _
        · rw [process_items_nomatch cats it0 rest seen gu hgu hs hm] at hit
          exact match_id_not_seen cats rest seen g hg it hit
        · rw [process_items_match_fst cats it0 rest seen gu hgu hs hm] at hit
          rcases List.mem_cons.mp hit with h | h
          · subst h
            simp only [itemIdentity, hgu, Option.map_some', ne_eq, Option.some.injEq]
            intro he
            exact hs (he ▸ hg)
          · exact match_id_not_seen cats rest (seen ++ [clean_guid gu]) g
              (List.mem_append_left _ hg) it h

/-- Every match of a pass comes from the input list, carries a matching
category, and its identity was not previously seen but is in the final
seen set. -/
theorem match_spec (cats : List String) :
    ∀ (items : List Item) (seen : List String),
      ∀ it ∈ (process_items cats items seen).1,
        it ∈ items ∧ matchesCategories cats it = true ∧
          ∃ g, itemGuid it = some g ∧ clean_guid g ∉ seen ∧
            clean_guid g ∈ (process_items cats items seen).2
  | [], _, it, hit => by simp [process_items] at hit
  | it0 :: rest, seen, it, hit => by
    rcases hgu : itemGuid it0 with _ | gu
    · rw [process_items_noguid cats it0 rest seen hgu] at hit ⊢
      obtain ⟨h1, h2, g, h3, h4, h5⟩ := match_spec cats rest seen it hit
      exact ⟨List.mem_cons_of_mem it0 h1, h2, g, h3, h4, h5⟩
    · by_cases hs : clean_guid gu ∈ seen
      · rw [process_items_seen cats it0 rest seen gu hgu hs] at hit ⊢
        obtain ⟨h1, h2, g, h3, h4, h5⟩ := match_spec cats rest seen it hit
        exact ⟨List.mem_cons_of_mem it0 h1, h2, g, h3, h4, h5⟩
      · rcases hm : matchesCategories cats it0 with _ | _
        · rw [process_items_nomatch cats it0 rest seen gu hgu hs hm] at hit ⊢
          obtain ⟨h1, h2, g, h3, h4, h5⟩ := match_spec cats rest seen it hit
          exact ⟨List.mem_cons_of_mem it0 h1, h2, g, h3, h4, h5⟩
        · rw [process_items_match_fst cats it0 rest seen gu hgu hs hm] at hit
          rw [process_items_match_snd cats it0 rest seen gu hgu hs hm]
          rcases List.mem_cons.mp hit with h | h
          · subst h
            exact ⟨List.mem_cons_self it rest, hm, gu, hgu, hs,
              seen_sub_process cats rest _ _
                (List.mem_append_right _ (List.mem_singleton.mpr rfl))⟩
          · obtain ⟨h1, h2, g, h3, h4, h5⟩ :=
              match_spec cats rest (seen ++ [clean_guid gu]) it h
            exact ⟨List.mem_cons_of_mem it0 h1, h2, g, h3,
              fun hg => h4 (List.mem_append_left _ hg), h5⟩

/-- No two matches of one pass share an identity. -/
theorem match_pairwise (cats : List String) :
    ∀ (items : List Item) (seen : List String),
      (process_items cats items seen).1.Pairwise
        (fun a b => itemIdentity a ≠ itemIdentity b)
  | [], _ => by simp [process_items]
  | it0 :: rest, seen => by
    rcases hgu : itemGuid it0 with _ | gu
    · rw [process_items_noguid cats it0 rest seen hgu]
      exact match_pairwise cats rest seen
    · by_cases hs : clean_guid gu ∈ seen
      · rw [process_items_seen cats it0 rest seen gu hgu hs]
        exact match_pairwise cats rest seen
      · rcases hm : matchesCategories cats it0 with _ | _
        · rw [process_items_nomatch cats it0 rest seen gu hgu hs hm]
          exact match_pairwise cats rest seen
        · rw [process_items_match_fst cats it0 rest seen gu hgu hs hm]
          refine List.Pairwise.cons ?_ (match_pairwise cats rest _)
          intro b hb
          have hid : itemIdentity it0 = some (clean_guid gu) := by
            simp [itemIdentity, hgu]
          rw [hid]
          exact fun he => match_id_not_seen cats rest (seen ++ [clean_guid gu])
            (clean_guid gu)
            (List.mem_append_right _ (List.mem_singleton.mpr rfl)) b hb he.symm

/-- Everything in the final seen set was already seen or is the identity
of a category-matching input entry. -/
theorem seen_additions (cats : List String) :
    ∀ (items : List Item) (seen : List String),
      ∀ g ∈ (process_items cats items seen).2,
        g ∈ seen ∨ ∃ it ∈ items, matchesCategories cats it = true ∧
          itemIdentity it = some g
  | [], _, g, hg => Or.inl hg
  | it0 :: rest, seen, g, hg => by
    rcases hgu : itemGuid it0 with _ | gu
    · rw [process_items_noguid cats it0 rest seen hgu] at hg
      rcases seen_additions cats rest seen g hg with h | ⟨it, h1, h2, h3⟩
      · exact Or.inl h
      · exact Or.inr ⟨it, List.mem_cons_of_mem it0 h1, h2, h3⟩
    · by_cases hs : clean_guid gu ∈ seen
      · rw [process_items_seen cats it0 rest seen gu hgu hs] at hg
        rcases seen_additions cats rest seen g hg with h | ⟨it, h1, h2, h3⟩
        · exact Or.inl h
        · exact Or.inr ⟨it, List.mem_cons_of_mem it0 h1, h2, h3⟩
      · rcases hm : matchesCategories cats it0 with _ | _
        · rw [process_items_nomatch cats it0 rest seen gu hgu hs hm] at hg
          rcases seen_additions cats rest seen g hg with h | ⟨it, h1, h2, h3⟩
          · exact Or.inl h
          · exact Or.inr ⟨it, List.mem_cons_of_mem it0 h1, h2, h3⟩
        · rw [process_items_match_snd cats it0 rest seen gu hgu hs hm] at hg
          rcases seen_additions cats rest (seen ++ [clean_guid gu]) g hg
            with h | ⟨it, h1, h2, h3⟩
          · rcases List.mem_append.mp h with h' | h'
            · exact Or.inl h'
            · refine Or.inr ⟨it0, List.mem_cons_self it0 rest, hm, ?_⟩
              simp [itemIdentity, hgu, List.mem_singleton.mp h']
          · exact Or.inr ⟨it, List.mem_cons_of_mem it0 h1, h2, h3⟩

/-- Every category-matching input entry with a guid ends with its
identity in the final seen set (matched now, or already seen). -/
theorem matching_mem_seen (cats : List String) :
    ∀ (items : List Item) (seen : List String),
      ∀ it ∈ items, ∀ g, itemGuid it = some g →
        matchesCategories cats it = true →
        clean_guid g ∈ (process_items cats items seen).2
  | [], _, it, hit, _, _, _ => by simp at hit
  | it0 :: rest, seen, it, hit, g, hgu, hm => by
    rcases List.mem_cons.mp hit with h | h
    · subst h
      rcases hs : decide (clean_guid g ∈ seen) with _ | _
      · have hs' : clean_guid g ∉ seen := of_decide_eq_false hs
        rw [process_items_match_snd cats it rest seen g hgu hs' hm]
        exact seen_sub_process cats rest _ _
          (List.mem_append_right _ (List.mem_singleton.mpr rfl))
      · have hs' : clean_guid g ∈ seen := of_decide_eq_true hs
        rw [process_items_seen cats it rest seen g hgu hs']
        exact seen_sub_process cats rest seen _ hs'
    · rcases hgu0 : itemGuid it0 with _ | gu
      · rw [process_items_noguid cats it0 rest seen hgu0]
        exact matching_mem_seen cats rest seen it h g hgu hm
      · by_cases hs : clean_guid gu ∈ seen
        · rw [process_items_seen cats it0 rest seen gu hgu0 hs]
          exact matching_mem_seen cats rest seen it h g hgu hm
        · rcases hm0 : matchesCategories cats it0 with _ | _
          · rw [process_items_nomatch cats it0 rest seen gu hgu0 hs hm0]
            exact matching_mem_seen cats rest seen it h g hgu hm
          · rw [process_items_match_snd cats it0 rest seen gu hgu0 hs hm0]
            exact matching_mem_seen cats rest _ it h g hgu hm

/-! ## Helper lemmas for the field mapping engine -/

/-- The attr-collection loop is filtering by name and projecting the
`value` attribute, in document order. -/
theorem collectAttrValues_eq (nm : String) :
    ∀ l : List (String × Option String),
      collectAttrValues nm l = (l.filter (fun a => a.1 = nm)).map Prod.snd
  | [] => rfl
  | a :: rest => by
    by_cases ha : a.1 = nm <;>
      simp [collectAttrValues, ha, collectAttrValues_eq nm rest]

/-- Output keys of the mapping engine come from the mapping's keys. -/
theorem gnd_keys_sub (it : Item) :
    ∀ (mapping : List (String × NotificationMapping)) (f : String),
      f ∈ (get_notification_data it mapping).map Prod.fst →
        f ∈ mapping.map Prod.fst
  | [], f, h => by simp [get_notification_data] at h
  | (f0, fm0) :: rest, f, h => by
    simp only [List.map_cons, List.mem_cons]
    simp only [get_notification_data] at h
    split_ifs at h with h1 h2 h3
    · simp only [List.map_cons, List.mem_cons] at h
      exact h.imp id (gnd_keys_sub it rest f)
    · simp only [List.map_cons, List.mem_cons] at h
      exact h.imp id (gnd_keys_sub it rest f)
    · simp only [List.map_cons, List.mem_cons] at h
      exact h.imp id (gnd_keys_sub it rest f)
    · exact Or.inr (gnd_keys_sub it rest f h)

/-- A field of one of the three known kinds always sets its key. -/
theorem gnd_known_mem (it : Item) :
    ∀ (mapping : List (String × NotificationMapping)) (f : String)
      (fm : NotificationMapping), (f, fm) ∈ mapping →
      (fm.type = "static" ∨ fm.type = "xml_tag" ∨ fm.type = "torznab_attr") →
      f ∈ (get_notification_data it mapping).map Prod.fst
  | [], f, fm, h, _ => by simp at h
  | (f0, fm0) :: rest, f, fm, h, hk => by
    rcases List.mem_cons.mp h with he | he
    · cases he
      rcases hk with hk | hk | hk <;> simp [get_notification_data, hk]
    · have hr := gnd_known_mem it rest f fm he hk
      simp only [get_notification_data]
      split_ifs with hh1 hh2 hh3
      · rw [List.map_cons]; exact List.mem_cons_of_mem _ hr
      · rw [List.map_cons]; exact List.mem_cons_of_mem _ hr
      · rw [List.map_cons]; exact List.mem_cons_of_mem _ hr
      · exact hr

/-- A field of unknown kind sets no key (when the mapping's keys are
distinct, as they are for a Python dict). -/
theorem gnd_unknown_not_mem (it : Item) :
    ∀ (mapping : List (String × NotificationMapping)) (f : String)
      (fm : NotificationMapping), (f, fm) ∈ mapping →
      (mapping.map Prod.fst).Nodup →
      fm.type ≠ "static" → fm.type ≠ "xml_tag" → fm.type ≠ "torznab_attr" →
      f ∉ (get_notification_data it mapping).map Prod.fst
  | [], f, fm, h, _, _, _, _ => by simp at h
  | (f0, fm0) :: rest, f, fm, h, hnd, h1, h2, h3 => by
    have hf0 : f0 ∉ rest.map Prod.fst := (List.nodup_cons.mp (by simpa using hnd)).1
    have hnd' : (rest.map Prod.fst).Nodup := (List.nodup_cons.mp (by simpa using hnd)).2
    rcases List.mem_cons.mp h with he | he
    · cases he
      rw [show get_notification_data it ((f0, fm0) :: rest) =
          get_notification_data it rest by simp [get_notification_data, h1, h2, h3]]
      intro hmem
      exact hf0 (gnd_keys_sub it rest f0 hmem)
    · have hne : f ≠ f0 := by
        intro hfe
        exact hf0 (hfe ▸ List.mem_map.mpr ⟨(f, fm), he, rfl⟩)
      have hr := gnd_unknown_not_mem it rest f fm he hnd' h1 h2 h3
      simp only [get_notification_data]
      split_ifs with hh1 hh2 hh3
      · simp only [List.map_cons, List.mem_cons]
        rintro (h' | h')
        · exact hne h'
        · exact hr h'
      · simp only [List.map_cons, List.mem_cons]
        rintro (h' | h')
        · exact hne h'
        · exact hr h'
      · simp only [List.map_cons, List.mem_cons]
        rintro (h' | h')
        · exact hne h'
        · exact hr h'
      · exact hr

/-! ## The claims -/

/-- C1: Once an identity is in the seen set, `_process_items` skips any
entry whose cleaned GUID equals it, so processing the same identity a
second time — within one pass (no two matches of a pass share an
identity) or in a later cycle after the identity reached the persisted
list — never yields a second match, hence never a second
notification. -/
theorem c1_identity_idempotence (cats : List String) :
    (∀ (items : List Item) (seen : List String) (g : String), g ∈ seen →
       ∀ it ∈ (process_items cats items seen).1, itemIdentity it ≠ some g)
  ∧ (∀ (items : List Item) (seen : List String),
       (process_items cats items seen).1.Pairwise
         (fun a b => itemIdentity a ≠ itemIdentity b))
  ∧ (∀ (items1 : List Item) (seen : List String) (it : Item) (g : String),
       it ∈ (process_items cats items1 seen).1 → itemIdentity it = some g →
       ∀ persisted : List String, g ∈ persisted →
         ∀ (items2 : List Item) (it2 : Item),
           it2 ∈ (process_items cats items2 (load_seen (some persisted))).1 →
           itemIdentity it2 ≠ some g) := by
  refine ⟨match_id_not_seen cats, match_pairwise cats, ?_⟩
  intro items1 seen it g hit hid persisted hg items2 it2 hit2
  have hclean : clean_guid g = g := by
    obtain ⟨gu, hgu, hgc⟩ : ∃ gu, itemGuid it = some gu ∧ clean_guid gu = g := by
      rcases hi : itemGuid it with _ | gu
      · simp [itemIdentity, hi] at hid
      · refine ⟨gu, rfl, ?_⟩
        simpa [itemIdentity, hi] using hid
    rw [← hgc, clean_guid_idem]
  have hmem : g ∈ load_seen (some persisted) := by
    simp only [load_seen, List.mem_dedup, List.mem_map]
    exact ⟨g, hg, hclean⟩
  exact match_id_not_seen cats items2 (load_seen (some persisted)) g hmem it2 hit2

theorem c1_witness : itemIdentity itemB ≠ some "x" :=
  (c1_identity_idempotence ["2000"]).1 [itemB] ["x"] "x" (by decide) itemB (by decide)

/-- C2: `_clean_guid` keeps a GUID without `'?'` unchanged (the
`ValueError` of the tuple unpacking falls back to the original string);
with `'?'` but no `'&'`-separated parameter starting with `id=` it keeps
only the base; with such a parameter it keeps the base, `'?'` and the
first `id=` parameter only.  The function is total — it never fails. -/
theorem c2_clean_guid_normalization :
    (∀ s : String, '?' ∉ s.data → clean_guid s = s)
  ∧ (∀ base params : List Char, '?' ∉ base →
      (splitAll '&' params).find? (fun p => startsWithId p) = none →
      clean_guid ⟨base ++ '?' :: params⟩ = ⟨base⟩)
  ∧ (∀ base params p : List Char, '?' ∉ base →
      (splitAll '&' params).find? (fun p => startsWithId p) = some p →
      clean_guid ⟨base ++ '?' :: params⟩ = ⟨base ++ '?' :: p⟩) := by
  refine ⟨fun s h => ?_, fun base params hb hf => ?_, fun base params p hb hf => ?_⟩
  · show (⟨cleanGuidL s.data⟩ : String) = s
    rw [cleanGuidL_of_no_sep s.data (splitFirst_eq_none '?' s.data h)]
  · show (⟨cleanGuidL (base ++ '?' :: params)⟩ : String) = ⟨base⟩
    rw [cleanGuidL_of_no_id (base ++ '?' :: params) base params
      (splitFirst_append '?' base params hb) hf]
  · show (⟨cleanGuidL (base ++ '?' :: params)⟩ : String) = ⟨base ++ '?' :: p⟩
    rw [cleanGuidL_of_id (base ++ '?' :: params) base params p
      (splitFirst_append '?' base params hb) hf]

theorem c2_witness :
    clean_guid "plain" = "plain"
  ∧ clean_guid "http://x/a?x=1&y=2" = "http://x/a"
  ∧ clean_guid "http://x/a?x=1&id=7&y=2" = "http://x/a?id=7" :=
  ⟨c2_clean_guid_normalization.1 "plain" (by decide),
   c2_clean_guid_normalization.2.1 "http://x/a".data "x=1&y=2".data
     (by decide) (by decide),
   c2_clean_guid_normalization.2.2 "http://x/a".data "x=1&id=7&y=2".data
     "id=7".data (by decide) (by decide)⟩

/-- C3: With the feed returning `C, B, A` (newest first), categories
matching only `B` and `C`, and an empty seen set, one regular poll cycle
notifies `[B, C]` in that order (reverse-order processing), persists a
seen set holding exactly the identities of `B` and `C`, and leaves `A`
neither notified nor in the seen set. -/
theorem c3_end_to_end_scenario :
    poll_torznab [itemC, itemB, itemA] ["2000"] none =
      ([itemB, itemC], ["gB?id=2", "gC?id=3"])
  ∧ itemIdentity itemB = some "gB?id=2"
  ∧ itemIdentity itemC = some "gC?id=3"
  ∧ itemIdentity itemA = some "gA?id=1"
  ∧ save_seen ["gB?id=2", "gC?id=3"] = ["gB?id=2", "gC?id=3"]
  ∧ "gA?id=1" ∉ ["gB?id=2", "gC?id=3"]
  ∧ itemA ∉ [itemB, itemC] := by decide

set_option maxRecDepth 4000 in
/-- C4 counterexample: `list(seen)` enumerates a CPython `set` in hash
order, not insertion order, so `seen_list[-200:]` need not keep the most
recently added identities.  For the admissible enumeration that lists the
newest identity `new` first among 201 elements, the persisted list drops
`new` entirely, contradicting the claim that the persisted list consists
of the most recently added 200 identities. -/
theorem c4_truncation_counterexample :
    ("new" :: (List.range 200).map (fun i => "b" ++ toString i)).length > 200
  ∧ "new" ∉ save_seen ("new" :: (List.range 200).map (fun i => "b" ++ toString i)) := by
  decide

/-- C4 amended: after any save the persisted list has length at most 200
and is a contiguous tail of the set's enumeration at save time; it is the
most recently added 200 identities only when that enumeration happens to
follow insertion order, which Python's `set` does not guarantee. -/
theorem c4_save_seen_cap (enum : List String) :
    (save_seen enum).length ≤ 200 ∧ (save_seen enum).IsSuffix enum := by
  unfold save_seen
  split_ifs with h
  · refine ⟨?_, ⟨enum.take (enum.length - 200), List.take_append_drop _ _⟩⟩
    rw [List.length_drop]
    omega
  · exact ⟨Nat.le_of_not_lt h, ⟨[], rfl⟩⟩

/-- C5: An entry whose categories do not intersect the configured set is
never appended to the match list, and nothing enters the seen set beyond
the identities of category-matching entries — so such an entry's identity
is never added on its account, even when unseen. -/
theorem c5_category_filter (cats : List String) (items : List Item)
    (seen : List String) (it : Item) (_hmem : it ∈ items)
    (hcat : matchesCategories cats it = false) :
    it ∉ (process_items cats items seen).1
  ∧ ∀ g ∈ (process_items cats items seen).2,
      g ∈ seen ∨ ∃ it2 ∈ items, matchesCategories cats it2 = true ∧
        itemIdentity it2 = some g := by
  refine ⟨fun hin => ?_, seen_additions cats items seen⟩
  obtain ⟨-, h2, -⟩ := match_spec cats items seen it hin
  rw [hcat] at h2
  exact Bool.noConfusion h2

theorem c5_witness : itemA ∉ (process_items ["2000"] [itemA, itemB] []).1 :=
  (c5_category_filter ["2000"] [itemA, itemB] [] itemA (by decide) (by decide)).1

/-- C6: The initialization pass starts from a cleared seen file (so the
load yields the empty set), processes the snapshot in original order,
sends zero notifications, and ends with a seen set holding the identity
of every currently category-matching entry — and nothing else. -/
theorem c6_initialization (items : List Item) (cats : List String) :
    (initialize_seen_items items cats).1 = []
  ∧ (∀ it ∈ items, ∀ g, itemGuid it = some g →
      matchesCategories cats it = true →
      clean_guid g ∈ (initialize_seen_items items cats).2)
  ∧ (∀ g ∈ (initialize_seen_items items cats).2,
      ∃ it ∈ items, matchesCategories cats it = true ∧
        itemIdentity it = some g) := by
  refine ⟨rfl, ?_, ?_⟩
  · intro it hit g hg hm
    exact matching_mem_seen cats items (load_seen none) it hit g hg hm
  · intro g hg
    rcases seen_additions cats items (load_seen none) g hg with h | h
    · simp [load_seen] at h
    · exact h

theorem c6_witness : clean_guid "gB?id=2" ∈ (initialize_seen_items [itemB] ["2000"]).2 :=
  (c6_initialization [itemB] ["2000"]).2.1 itemB (by decide) "gB?id=2"
    (by decide) (by decide)

/-- C7: `_load_seen` yields the empty set on a missing or malformed file,
and on a successful read yields exactly the set of normalized identities
of the persisted strings. -/
theorem c7_load_seen_total :
    load_seen none = []
  ∧ ∀ (l : List String) (g : String),
      (g ∈ load_seen (some l) ↔ ∃ g0 ∈ l, clean_guid g0 = g) := by
  refine ⟨rfl, fun l g => ?_⟩
  simp [load_seen, List.mem_dedup, List.mem_map]

/-- C8: Field extraction is per-field: the engine's output over a
concatenation of fields is the concatenation of the outputs (one field
never aborts the rest), and for a mapping with one well-formed `xml_tag`
field and one faulting (absent-path) field, the good field gets its value
and the bad field gets null. -/
theorem c8_field_extraction_isolation :
    (∀ (it : Item) (m1 m2 : List (String × NotificationMapping)),
       get_notification_data it (m1 ++ m2) =
         get_notification_data it m1 ++ get_notification_data it m2)
  ∧ (∀ (it : Item) (fg fb p v : String),
       it.tags.find? (fun t => t.1 = p) = some (p, some v) →
       get_notification_data it
           [(fg, ⟨"xml_tag", some p, none, none, none⟩),
            (fb, ⟨"xml_tag", none, none, none, none⟩)] =
         [(fg, FieldValue.str v), (fb, FieldValue.null)]) := by
  constructor
  · intro it m1 m2
    induction m1 with
    | nil => rfl
    | cons hd tl ih =>
      obtain ⟨f, fm⟩ := hd
      simp only [List.cons_append, get_notification_data]
      split_ifs <;> simp [ih]
  · intro it fg fb p v hfind
    simp [get_notification_data, extract_xml_tag, hfind, toFieldValue]

theorem c8_witness :
    get_notification_data itemT
        [("good", ⟨"xml_tag", some "title", none, none, none⟩),
         ("bad", ⟨"xml_tag", none, none, none, none⟩)] =
      [("good", FieldValue.str "Hello"), ("bad", FieldValue.null)] :=
  c8_field_extraction_isolation.2 itemT "good" "bad" "title" "Hello" (by decide)

/-- C9: `_extract_torznab_attr` collects the `value` of every matching
attr element in document order; `select = 'first'` yields the first
collected value (null when none), `select = 'all'` yields the full
ordered list — and null, not an empty list, when none. -/
theorem c9_torznab_attr_selection (it : Item) (nm : String) :
    (collectAttrValues nm it.attrs =
      (it.attrs.filter (fun a => a.1 = nm)).map Prod.snd)
  ∧ (collectAttrValues nm it.attrs = [] →
      extract_torznab_attr it (some nm) (some "first") = FieldValue.null
      ∧ extract_torznab_attr it (some nm) (some "all") = FieldValue.null)
  ∧ (∀ v vs, collectAttrValues nm it.attrs = v :: vs →
      extract_torznab_attr it (some nm) (some "first") = toFieldValue v
      ∧ extract_torznab_attr it (some nm) (some "all") = FieldValue.vals (v :: vs)) := by
  refine ⟨collectAttrValues_eq nm it.attrs, fun h => ?_, fun v vs h => ?_⟩
  · constructor <;> simp [extract_torznab_attr, pyInterp, h]
  · constructor <;> simp [extract_torznab_attr, pyInterp, h]

theorem c9_witness :
    extract_torznab_attr itemB (some "category") (some "first") =
      toFieldValue (some "2000")
  ∧ extract_torznab_attr itemB (some "category") (some "all") =
      FieldValue.vals [some "2000"] :=
  (c9_torznab_attr_selection itemB "category").2.2 (some "2000") [] (by decide)

/-- C10: A configured field whose type is none of `static`, `xml_tag`,
`torznab_attr` is silently omitted from the payload — its key is absent
(mapping keys are distinct, as in a Python dict) — while every field of a
known type always sets its key (possibly to null). -/
theorem c10_unknown_field_type_omitted (it : Item)
    (mapping : List (String × NotificationMapping)) (f : String)
    (fm : NotificationMapping) (hmem : (f, fm) ∈ mapping)
    (hnd : (mapping.map Prod.fst).Nodup)
    (h1 : fm.type ≠ "static") (h2 : fm.type ≠ "xml_tag")
    (h3 : fm.type ≠ "torznab_attr") :
    f ∉ (get_notification_data it mapping).map Prod.fst
  ∧ ∀ (f2 : String) (fm2 : NotificationMapping), (f2, fm2) ∈ mapping →
      (fm2.type = "static" ∨ fm2.type = "xml_tag" ∨ fm2.type = "torznab_attr") →
      f2 ∈ (get_notification_data it mapping).map Prod.fst :=
  ⟨gnd_unknown_not_mem it mapping f fm hmem hnd h1 h2 h3,
   fun f2 fm2 hm2 hk2 => gnd_known_mem it mapping f2 fm2 hm2 hk2⟩

theorem c10_witness :
    "weird" ∉ (get_notification_data itemT mappingEx).map Prod.fst :=
  (c10_unknown_field_type_omitted itemT mappingEx "weird"
    ⟨"mystery", none, none, none, none⟩ (by decide) (by decide) (by decide)
    (by decide) (by decide)).1

end Torznab
